import Mathlib

/-
Shallow embedding of src/idynamic.py (AlexeyG/iDynamic).

The program maintains a pool of SLURM "engine" jobs.  Its mutable state is
the `QueueManager` object: the configuration `n_wanted` / `max_n_queued`
and the set `submitted_jobs` of job ids this instance has submitted
(modelled as a duplicate-free list, since Python sets hold each element
once).  All interaction with SLURM (pyslurm queries, sbatch submissions,
kill requests) goes through an oracle `Scheduler` that fixes, for one
operation sequence, what the external scheduler answers.

Python exceptions that can escape a modelled function are represented by
an `Option` result (`none` = the call raises); exceptions the source
catches are folded into the oracle's boolean / integer answers, exactly
as the source folds them.
-/

namespace IDynamic

/- Job state string constants, from the `JobState` class of the source. -/
namespace JobState

def RUNNING : String := "RUNNING"

def SUSPENDED : String := "SUSPENDED"

def COMPLETED : String := "COMPLETED"

def TIMEOUT : String := "TIMEOUT"

def COMPLETING : String := "COMPLETING"

def PENDING : String := "PENDING"

end JobState

/-- Membership test of line 159 of the source:
`info['job_state'] in [JobState.RUNNING, JobState.SUSPENDED]`. -/
def isRunningTok (tok : String) : Bool :=
  tok == JobState.RUNNING || tok == JobState.SUSPENDED

/-- Equality test of line 161 of the source: `info['job_state'] == JobState.PENDING`. -/
def isQueuedTok (tok : String) : Bool :=
  tok == JobState.PENDING

/-- Membership test of line 163 of the source:
`info['job_state'] in [JobState.COMPLETED, JobState.COMPLETING, JobState.TIMEOUT]`. -/
def isCompletedTok (tok : String) : Bool :=
  tok == JobState.COMPLETED || tok == JobState.COMPLETING || tok == JobState.TIMEOUT

/-- A token the elif-chain of `get_submitted_job_info` recognizes; any other
non-empty token falls to the final `else` branch (line 165), which only logs. -/
def recognizedTok (tok : String) : Bool :=
  isRunningTok tok || isQueuedTok tok || isCompletedTok tok

/-- Oracle for the external scheduler, fixing its answers during one modelled
operation:
* `find_id j` — result of `pyslurm.job().find_id(j)`: `none` models an empty
  dict (job unknown to SLURM), `some tok` models a record with
  `job_state = tok`;
* `kill_ok j` — whether `pyslurm.slurm_kill_job(j, ...)` returns normally
  (`false` models the exception the source catches);
* `submit_res k` — the value of `QueueManager.slurm_submit` on the k-th
  submission attempt of the operation: the parsed sbatch job id, or `-1`
  (more generally any non-positive value) when submission fails. -/
structure Scheduler where
  find_id : Int → Option String
  kill_ok : Int → Bool
  submit_res : Nat → Int

/-- State of a `QueueManager` object: the configuration read in `__init__`
and the bookkeeping set `submitted_jobs` (a Python `set`, modelled as a
duplicate-free list of ids).  The fields `profile`, `profile_dir`,
`verbose` and `pid` only affect the job-script text and logging and are
not modelled. -/
structure QueueManager where
  n_wanted : Int
  max_n_queued : Int
  submitted_jobs : List Int

/-- Loop body of `get_submitted_job_info` (source lines 153-166): each tracked
id is appended to the bucket chosen by the elif-chain on its state; an
unrecognized non-empty token is only logged (line 166) and the id is appended
to no bucket.  Result: (running_ids, queued_ids, completed_ids, missing_ids). -/
def classifyJobs (sched : Scheduler) : List Int → List Int × List Int × List Int × List Int
  | [] => ([], [], [], [])
  | id :: rest =>
    let p := classifyJobs sched rest
    match sched.find_id id with
    | none => (p.1, p.2.1, p.2.2.1, id :: p.2.2.2)
    | some tok =>
      if isRunningTok tok then (id :: p.1, p.2.1, p.2.2.1, p.2.2.2)
      else if isQueuedTok tok then (p.1, id :: p.2.1, p.2.2.1, p.2.2.2)
      else if isCompletedTok tok then (p.1, p.2.1, id :: p.2.2.1, p.2.2.2)
      else (p.1, p.2.1, p.2.2.1, p.2.2.2)

/-- `QueueManager.get_submitted_job_info` (source lines 147-168). -/
def get_submitted_job_info (qm : QueueManager) (sched : Scheduler) :
    List Int × List Int × List Int × List Int :=
  classifyJobs sched qm.submitted_jobs

/-- `QueueManager.kill_job` (source lines 134-145).  The first statement is
`self.submitted_jobs.remove(job_id)`; Python's `set.remove` raises `KeyError`
when the element is absent, and that statement is outside the try/except, so
the call raises (modelled by `none`) whenever `job_id` is not tracked.  The
`pyslurm.slurm_kill_job` exception IS caught and turned into the boolean
result. -/
def kill_job (qm : QueueManager) (sched : Scheduler) (job_id : Int) :
    Option (QueueManager × Bool) :=
  if job_id ∈ qm.submitted_jobs then
    some ({ qm with submitted_jobs := qm.submitted_jobs.erase job_id }, sched.kill_ok job_id)
  else none

/-- A `for job_id in ids : self.kill_job(job_id)` loop (cleanup loop of
`poll`, source lines 89-90, and drain loop of `infinite_poll`, source lines
73-74).  `none` models a `KeyError` escaping from some `kill_job` call. -/
def killEach (sched : Scheduler) : QueueManager → List Int → Option QueueManager
  | qm, [] => some qm
  | qm, id :: rest =>
    match kill_job qm sched id with
    | none => none
    | some p => killEach sched p.1 rest

/-- `QueueManager.submit_job` (source lines 116-132) with the result of
`QueueManager.slurm_submit` supplied as `job_id`: when it is positive the id
is added to `submitted_jobs` (Python `set.add`: a no-op when already present),
otherwise the state is untouched; the raw result is returned either way. -/
def submit_job (qm : QueueManager) (job_id : Int) : QueueManager × Int :=
  if 0 < job_id then
    ({ qm with submitted_jobs :=
        if job_id ∈ qm.submitted_jobs then qm.submitted_jobs
        else qm.submitted_jobs ++ [job_id] }, job_id)
  else (qm, job_id)

/-- Submission loop `for i in range(n_submit) : job_id = self.submit_job()`
(source lines 102-107): `i` is the index of the next attempt (feeding the
oracle), the second argument the number of attempts left.  Returns the final
state and the list of the attempts' results in order. -/
def runBatchAux (sched : Scheduler) : Nat → Nat → QueueManager → QueueManager × List Int
  | _, 0, qm => (qm, [])
  | i, Nat.succ nn, qm =>
    let p := submit_job qm (sched.submit_res i)
    let rest := runBatchAux sched (i + 1) nn p.1
    (rest.1, p.2 :: rest.2)

/-- Observable record of one `poll` cycle: the four buckets returned by
`get_submitted_job_info`, the ids the cleanup loop passed to `kill_job`, and
the results of the submission attempts of the top-up step. -/
structure CycleStats where
  runningIds : List Int
  queuedIds : List Int
  completedIds : List Int
  missingIds : List Int
  killedIds : List Int
  submitResults : List Int

/-- `QueueManager.poll` (source lines 78-114): classify the tracked jobs,
kill every completed or missing id (in that order), then — with the counts
taken from the buckets computed BEFORE the cleanup — decide the top-up:
when `n_running + n_queued < n_wanted` and `n_queued < max_n_queued`, run
`n_submit = min(n_wanted - (n_running + n_queued), max_n_queued - n_queued)`
submission attempts.  `none` models a `KeyError` escaping from the cleanup
loop. -/
def poll (qm : QueueManager) (sched : Scheduler) : Option (QueueManager × CycleStats) :=
  let info := get_submitted_job_info qm sched
  let r := info.1
  let q := info.2.1
  let c := info.2.2.1
  let m := info.2.2.2
  match killEach sched qm (c ++ m) with
  | none => none
  | some qm1 =>
    let nRunning : Int := r.length
    let nQueued : Int := q.length
    if nRunning + nQueued < qm.n_wanted ∧ nQueued < qm.max_n_queued then
      if nQueued < qm.max_n_queued then
        let nSubmit : Int := min (qm.n_wanted - (nRunning + nQueued)) (qm.max_n_queued - nQueued)
        let res := runBatchAux sched 0 nSubmit.toNat qm1
        some (res.1, ⟨r, q, c, m, c ++ m, res.2⟩)
      else
        some (qm1, ⟨r, q, c, m, c ++ m, []⟩)
    else
      some (qm1, ⟨r, q, c, m, c ++ m, []⟩)

/-- The `except KeyboardInterrupt` branch of `QueueManager.infinite_poll`
(source lines 67-76): snapshot `submitted_jobs`, kill every id of the
snapshot (an empty snapshot kills nothing and only logs).  Returns the final
state and the list of ids a kill request was issued for; `none` models a
`KeyError` escaping from the drain. -/
def infinite_poll_interrupted (qm : QueueManager) (sched : Scheduler) :
    Option (QueueManager × List Int) :=
  match killEach sched qm qm.submitted_jobs with
  | none => none
  | some qm1 => some (qm1, qm.submitted_jobs)

/-- Characteristic predicate of the running bucket: the id has a record and
its state token passes the first test of the elif-chain. -/
def fR (sched : Scheduler) (id : Int) : Bool :=
  match sched.find_id id with
  | none => false
  | some tok => isRunningTok tok

/-- Characteristic predicate of the queued bucket (second elif branch). -/
def fQ (sched : Scheduler) (id : Int) : Bool :=
  match sched.find_id id with
  | none => false
  | some tok => !isRunningTok tok && isQueuedTok tok

/-- Characteristic predicate of the completed bucket (third elif branch). -/
def fC (sched : Scheduler) (id : Int) : Bool :=
  match sched.find_id id with
  | none => false
  | some tok => !isRunningTok tok && !isQueuedTok tok && isCompletedTok tok

/-- Characteristic predicate of the missing bucket: `find_id` returned an
empty record. -/
def fM (sched : Scheduler) (id : Int) : Bool :=
  (sched.find_id id).isNone

/-- Number of submission attempts one `poll` cycle makes, as a function of
the configuration and the sizes of the pre-cleanup running and queued
buckets (mirrors the top-up decision of source lines 98-102). -/
def pollSubmitCount (nW mQ : Int) (nR nQ : Nat) : Nat :=
  if (nR : Int) + (nQ : Int) < nW ∧ (nQ : Int) < mQ then
    (min (nW - ((nR : Int) + (nQ : Int))) (mQ - (nQ : Int))).toNat
  else 0

/-- States the program can be in, paired with the list of ids returned so
far by successful submissions of this instance.  `__init__` starts with an
empty `submitted_jobs` set; each `poll` cycle (with its scheduler oracle)
extends the log by the positive results of its submission attempts; the
interrupt drain of `infinite_poll` adds nothing. -/
inductive Reachable : QueueManager → List Int → Prop
  | init (nW mQ : Int) : Reachable ⟨nW, mQ, []⟩ []
  | pollStep {qm : QueueManager} {log : List Int} {sched : Scheduler}
      {qm' : QueueManager} {stats : CycleStats} :
      Reachable qm log → poll qm sched = some (qm', stats) →
      Reachable qm' (log ++ stats.submitResults.filter (fun x => decide (0 < x)))
  | interruptStep {qm : QueueManager} {log : List Int} {sched : Scheduler}
      {qm' : QueueManager} {killed : List Int} :
      Reachable qm log → infinite_poll_interrupted qm sched = some (qm', killed) →
      Reachable qm' log

/-- A submission attempt returns the raw scheduler answer unchanged. -/
theorem submit_job_snd (qm : QueueManager) (j : Int) : (submit_job qm j).2 = j := by
  unfold submit_job
  split <;> rfl

/-- A submission attempt never touches the configuration fields. -/
theorem submit_job_config (qm : QueueManager) (j : Int) :
    (submit_job qm j).1.n_wanted = qm.n_wanted ∧
    (submit_job qm j).1.max_n_queued = qm.max_n_queued := by
  unfold submit_job
  split <;> exact ⟨rfl, rfl⟩

/-- A failed submission attempt (non-positive scheduler answer) leaves the
whole state unchanged. -/
theorem submit_job_fail (qm : QueueManager) (j : Int) (h : ¬ 0 < j) :
    submit_job qm j = (qm, j) := by
  unfold submit_job
  rw [if_neg h]

/-- Membership in the registry after one submission attempt. -/
theorem submit_job_mem (qm : QueueManager) (j x : Int) :
    x ∈ (submit_job qm j).1.submitted_jobs ↔
      x ∈ qm.submitted_jobs ∨ (0 < j ∧ x = j) := by
  unfold submit_job
  by_cases hj : 0 < j
  · rw [if_pos hj]
    by_cases hmem : j ∈ qm.submitted_jobs
    · rw [if_pos hmem]
      constructor
      · exact fun h => Or.inl h
      · rintro (h | ⟨_, rfl⟩)
        · exact h
        · exact hmem
    · rw [if_neg hmem]
      simp [hj]
  · rw [if_neg hj]
    simp [hj]

/-- A submission attempt preserves freedom from duplicates. -/
theorem submit_job_nodup (qm : QueueManager) (j : Int)
    (h : qm.submitted_jobs.Nodup) : (submit_job qm j).1.submitted_jobs.Nodup := by
  unfold submit_job
  by_cases hj : 0 < j
  · rw [if_pos hj]
    by_cases hmem : j ∈ qm.submitted_jobs
    · rw [if_pos hmem]; exact h
    · rw [if_neg hmem]
      simp [List.nodup_append, h, hmem]
  · rw [if_neg hj]; exact h

/-- Length of the registry after one submission attempt. -/
theorem submit_job_length (qm : QueueManager) (j : Int) :
    (submit_job qm j).1.submitted_jobs.length =
      (if 0 < j ∧ j ∉ qm.submitted_jobs then qm.submitted_jobs.length + 1
       else qm.submitted_jobs.length) := by
  unfold submit_job
  by_cases hj : 0 < j
  · rw [if_pos hj]
    by_cases hmem : j ∈ qm.submitted_jobs
    · simp [hmem]
    · simp [hmem, hj]
  · rw [if_neg hj]
    simp [hj]

/-- The batch loop performs its attempts in order: the result list records
the oracle's answer to every attempt, one per planned attempt. -/
theorem runBatchAux_results (sched : Scheduler) (n : Nat) :
    ∀ (i : Nat) (qm : QueueManager),
      (runBatchAux sched i n qm).2 = (List.range' i n).map sched.submit_res := by
  induction n with
  | zero => intro i qm; rfl
  | succ nn ih =>
    intro i qm
    rw [List.range'_succ]
    simp only [runBatchAux, List.map_cons]
    rw [submit_job_snd, ih]

/-- The batch loop never touches the configuration fields. -/
theorem runBatchAux_config (sched : Scheduler) (n : Nat) :
    ∀ (i : Nat) (qm : QueueManager),
      (runBatchAux sched i n qm).1.n_wanted = qm.n_wanted ∧
      (runBatchAux sched i n qm).1.max_n_queued = qm.max_n_queued := by
  induction n with
  | zero => intro i qm; exact ⟨rfl, rfl⟩
  | succ nn ih =>
    intro i qm
    simp only [runBatchAux]
    obtain ⟨h1, h2⟩ := ih (i + 1) (submit_job qm (sched.submit_res i)).1
    obtain ⟨h3, h4⟩ := submit_job_config qm (sched.submit_res i)
    exact ⟨h1.trans h3, h2.trans h4⟩

/-- Membership in the registry after the batch loop: the old members plus
the positive answers among the attempts performed. -/
theorem runBatchAux_mem (sched : Scheduler) (n : Nat) :
    ∀ (i : Nat) (qm : QueueManager) (x : Int),
      x ∈ (runBatchAux sched i n qm).1.submitted_jobs ↔
        x ∈ qm.submitted_jobs ∨
          (0 < x ∧ ∃ k, k < n ∧ sched.submit_res (i + k) = x) := by
  induction n with
  | zero => intro i qm x; simp [runBatchAux]
  | succ nn ih =>
    intro i qm x
    simp only [runBatchAux]
    rw [ih, submit_job_mem]
    constructor
    · rintro ((h | ⟨hx, rfl⟩) | ⟨hx, k, hk, hres⟩)
      · exact Or.inl h
      · exact Or.inr ⟨hx, 0, Nat.succ_pos nn, by simp⟩
      · exact Or.inr ⟨hx, k + 1, by omega, by rw [← hres]; ring_nf⟩
    · rintro (h | ⟨hx, k, hk, hres⟩)
      · exact Or.inl (Or.inl h)
      · rcases k with _ | kk
        · refine Or.inl (Or.inr ⟨?_, ?_⟩) <;> simp_all
        · refine Or.inr ⟨hx, kk, by omega, ?_⟩
          rw [← hres]; ring_nf

/-- The batch loop preserves freedom from duplicates. -/
theorem runBatchAux_nodup (sched : Scheduler) (n : Nat) :
    ∀ (i : Nat) (qm : QueueManager), qm.submitted_jobs.Nodup →
      (runBatchAux sched i n qm).1.submitted_jobs.Nodup := by
  induction n with
  | zero => intro i qm h; exact h
  | succ nn ih =>
    intro i qm h
    exact ih (i + 1) _ (submit_job_nodup qm (sched.submit_res i) h)

/-- When the positive answers of the attempts are fresh (not already
tracked) and pairwise distinct, the registry grows by exactly the number of
successful attempts. -/
theorem runBatchAux_length (sched : Scheduler) (n : Nat) :
    ∀ (i : Nat) (qm : QueueManager),
      (∀ k, k < n → 0 < sched.submit_res (i + k) →
        sched.submit_res (i + k) ∉ qm.submitted_jobs) →
      (∀ k l, k < l → l < n → 0 < sched.submit_res (i + k) →
        sched.submit_res (i + k) ≠ sched.submit_res (i + l)) →
      (runBatchAux sched i n qm).1.submitted_jobs.length =
        qm.submitted_jobs.length +
          (((List.range' i n).map sched.submit_res).filter
            (fun x => decide (0 < x))).length := by
  induction n with
  | zero => intro i qm _ _; simp [runBatchAux]
  | succ nn ih =>
    intro i qm hfresh hdist
    rw [List.range'_succ]
    simp only [runBatchAux, List.map_cons, List.filter_cons]
    by_cases hp : 0 < sched.submit_res i
    · have hfr : sched.submit_res i ∉ qm.submitted_jobs := by
        have := hfresh 0 (Nat.succ_pos nn)
        simpa using this hp
      rw [ih (i + 1) (submit_job qm (sched.submit_res i)).1 ?_ ?_]
      · have hlen := submit_job_length qm (sched.submit_res i)
        rw [if_pos ⟨hp, hfr⟩] at hlen
        rw [hlen, if_pos (by simpa using hp)]
        simp only [List.length_cons]
        omega
      · intro k hk hpos hmem
        rw [submit_job_mem] at hmem
        rcases hmem with hmem | ⟨_, heq⟩
        · have := hfresh (k + 1) (by omega)
          rw [show i + (k + 1) = i + 1 + k by omega] at this
          exact this hpos hmem
        · have := hdist 0 (k + 1) (Nat.succ_pos k) (by omega)
          simp only [Nat.add_zero] at this
          rw [show i + (k + 1) = i + 1 + k by omega] at this
          exact this hp heq.symm
      · intro k l hkl hl hpos
        have := hdist (k + 1) (l + 1) (by omega) (by omega)
        rw [show i + (k + 1) = i + 1 + k by omega,
            show i + (l + 1) = i + 1 + l by omega] at this
        exact this (by rw [show i + 1 + k = i + (k + 1) by omega] at hpos ⊢; exact hpos)
    · rw [ih (i + 1) (submit_job qm (sched.submit_res i)).1 ?_ ?_]
      · rw [submit_job_fail qm _ hp, if_neg (by simpa using hp)]
      · intro k hk hpos hmem
        rw [submit_job_fail qm _ hp] at hmem
        have := hfresh (k + 1) (by omega)
        rw [show i + (k + 1) = i + 1 + k by omega] at this
        exact this hpos hmem
      · intro k l hkl hl hpos
        have := hdist (k + 1) (l + 1) (by omega) (by omega)
        rw [show i + (k + 1) = i + 1 + k by omega,
            show i + (l + 1) = i + 1 + l by omega] at this
        exact this hpos

/-- When the ids to kill are duplicate-free and all tracked, no `kill_job`
call of the loop raises: the loop returns the state with exactly those ids
removed, the configuration untouched. -/
theorem killEach_some (sched : Scheduler) (ds : List Int) :
    ∀ qm : QueueManager, ds.Nodup → (∀ d ∈ ds, d ∈ qm.submitted_jobs) →
      qm.submitted_jobs.Nodup →
      ∃ qm1, killEach sched qm ds = some qm1 ∧
        qm1.n_wanted = qm.n_wanted ∧ qm1.max_n_queued = qm.max_n_queued ∧
        qm1.submitted_jobs.Nodup ∧
        ∀ x, x ∈ qm1.submitted_jobs ↔ x ∈ qm.submitted_jobs ∧ x ∉ ds := by
  induction ds with
  | nil =>
    intro qm _ _ hnd
    exact ⟨qm, rfl, rfl, rfl, hnd, by simp⟩
  | cons d rest ih =>
    intro qm hnds hsub hnd
    have hd : d ∈ qm.submitted_jobs := hsub d (List.mem_cons_self d rest)
    have hkill : kill_job qm sched d =
        some ({ qm with submitted_jobs := qm.submitted_jobs.erase d }, sched.kill_ok d) := by
      unfold kill_job
      rw [if_pos hd]
    obtain ⟨qm1, h1, h2, h3, h4, h5⟩ :=
      ih { qm with submitted_jobs := qm.submitted_jobs.erase d }
        (List.Nodup.of_cons hnds)
        (by
          intro d' hd'
          have hne : d' ≠ d := by
            rintro rfl
            exact (List.nodup_cons.mp hnds).1 hd'
          exact (List.mem_erase_of_ne hne).mpr (hsub d' (List.mem_cons_of_mem d hd')))
        (List.Nodup.erase d hnd)
    refine ⟨qm1, ?_, h2, h3, h4, ?_⟩
    · simp only [killEach, hkill]
      exact h1
    · intro x
      rw [h5 x]
      simp only [List.Nodup.mem_erase_iff hnd, List.mem_cons]
      constructor
      · rintro ⟨⟨hne, hmem⟩, hnr⟩
        exact ⟨hmem, by tauto⟩
      · rintro ⟨hmem, hn⟩
        exact ⟨⟨fun h => hn (Or.inl h), hmem⟩, fun h => hn (Or.inr h)⟩

/-- Whatever the ids passed to it, a successful kill loop only ever removes
tracked ids and never touches the configuration. -/
theorem killEach_subset (sched : Scheduler) (ds : List Int) :
    ∀ (qm qm1 : QueueManager), killEach sched qm ds = some qm1 →
      (∀ x ∈ qm1.submitted_jobs, x ∈ qm.submitted_jobs) ∧
      qm1.n_wanted = qm.n_wanted ∧ qm1.max_n_queued = qm.max_n_queued := by
  induction ds with
  | nil =>
    intro qm qm1 h
    simp only [killEach, Option.some.injEq] at h
    subst h
    exact ⟨fun x hx => hx, rfl, rfl⟩
  | cons d rest ih =>
    intro qm qm1 h
    simp only [killEach] at h
    rcases hk : kill_job qm sched d with _ | p
    · rw [hk] at h; cases h
    · rw [hk] at h
      have hp : p.1 = { qm with submitted_jobs := qm.submitted_jobs.erase d } := by
        unfold kill_job at hk
        by_cases hd : d ∈ qm.submitted_jobs
        · rw [if_pos hd] at hk
          cases hk; rfl
        · rw [if_neg hd] at hk; cases hk
      obtain ⟨hs, h2, h3⟩ := ih p.1 qm1 h
      rw [hp] at hs h2 h3
      exact ⟨fun x hx => List.erase_subset d qm.submitted_jobs (hs x hx), h2, h3⟩

/-- The four buckets built by the classification loop are exactly the
filters of the tracked-id list by the four characteristic predicates. -/
theorem classifyJobs_eq (sched : Scheduler) (l : List Int) :
    classifyJobs sched l =
      (l.filter (fR sched), l.filter (fQ sched), l.filter (fC sched), l.filter (fM sched)) := by
  induction l with
  | nil => rfl
  | cons a rest ih =>
    simp only [classifyJobs, ih, List.filter_cons]
    rcases hfi : sched.find_id a with _ | tok
    · simp [fR, fQ, fC, fM, hfi]
    · simp only [fR, fQ, fC, fM, hfi]
      rcases hr : isRunningTok tok
      · rcases hq : isQueuedTok tok
        · rcases hc : isCompletedTok tok
          · simp [hr, hq, hc]
          · simp [hr, hq, hc]
        · simp [hr, hq]
      · simp [hr]

/-- The four characteristic predicates are pairwise exclusive: no id can
satisfy two of them at once. -/
theorem f_pairwise (sched : Scheduler) (x : Int) :
    ¬(fR sched x = true ∧ fQ sched x = true) ∧
    ¬(fR sched x = true ∧ fC sched x = true) ∧
    ¬(fR sched x = true ∧ fM sched x = true) ∧
    ¬(fQ sched x = true ∧ fC sched x = true) ∧
    ¬(fQ sched x = true ∧ fM sched x = true) ∧
    ¬(fC sched x = true ∧ fM sched x = true) := by
  rcases hfi : sched.find_id x with _ | tok
  · simp [fR, fQ, fC, fM, hfi]
  · simp only [fR, fQ, fC, fM, hfi, Option.isNone_some]
    rcases isRunningTok tok <;> rcases isQueuedTok tok <;> rcases isCompletedTok tok <;> simp

/-- Full characterization of one `poll` cycle on a duplicate-free registry:
the cycle never raises, its statistics report the pre-cleanup buckets, the
kill requests are exactly the completed and missing ids, the number of
submission attempts is `pollSubmitCount` of the PRE-cleanup running/queued
sizes, and the final registry is the old one minus the killed ids plus the
positive submission results. -/
theorem poll_spec (qm : QueueManager) (sched : Scheduler) (hnd : qm.submitted_jobs.Nodup)
    (r q c m : List Int) (hinfo : get_submitted_job_info qm sched = (r, q, c, m)) :
    ∃ qm' stats, poll qm sched = some (qm', stats) ∧
      stats.runningIds = r ∧ stats.queuedIds = q ∧ stats.completedIds = c ∧
      stats.missingIds = m ∧ stats.killedIds = c ++ m ∧
      stats.submitResults =
        (List.range' 0 (pollSubmitCount qm.n_wanted qm.max_n_queued r.length q.length)).map
          sched.submit_res ∧
      qm'.n_wanted = qm.n_wanted ∧ qm'.max_n_queued = qm.max_n_queued ∧
      qm'.submitted_jobs.Nodup ∧
      ∀ x, x ∈ qm'.submitted_jobs ↔
        (x ∈ qm.submitted_jobs ∧ x ∉ c ++ m) ∨
        (0 < x ∧ ∃ k, k < pollSubmitCount qm.n_wanted qm.max_n_queued r.length q.length ∧
          sched.submit_res k = x) := by
  have hinfo' : get_submitted_job_info qm sched =
      (qm.submitted_jobs.filter (fR sched), qm.submitted_jobs.filter (fQ sched),
        qm.submitted_jobs.filter (fC sched), qm.submitted_jobs.filter (fM sched)) := by
    rw [get_submitted_job_info, classifyJobs_eq]
  rw [hinfo'] at hinfo
  simp only [Prod.mk.injEq] at hinfo
  obtain ⟨hr, hq, hc, hm⟩ := hinfo
  subst hr; subst hq; subst hc; subst hm
  have hcm_nd : (qm.submitted_jobs.filter (fC sched) ++
      qm.submitted_jobs.filter (fM sched)).Nodup := by
    rw [List.nodup_append]
    refine ⟨hnd.filter _, hnd.filter _, ?_⟩
    intro a ha hb
    rw [List.mem_filter] at ha hb
    exact (f_pairwise sched a).2.2.2.2.2 ⟨ha.2, hb.2⟩
  have hcm_sub : ∀ d ∈ qm.submitted_jobs.filter (fC sched) ++
      qm.submitted_jobs.filter (fM sched), d ∈ qm.submitted_jobs := by
    intro d hd
    rcases List.mem_append.mp hd with h | h
    · exact (List.mem_filter.mp h).1
    · exact (List.mem_filter.mp h).1
  obtain ⟨qm1, hk, hk2, hk3, hk4, hk5⟩ :=
    killEach_some sched _ qm hcm_nd hcm_sub hnd
  simp only [poll, hinfo']
  rw [hk]
  dsimp only
  by_cases hg :
      ((qm.submitted_jobs.filter (fR sched)).length : Int) +
          ((qm.submitted_jobs.filter (fQ sched)).length : Int) < qm.n_wanted ∧
        ((qm.submitted_jobs.filter (fQ sched)).length : Int) < qm.max_n_queued
  · rw [if_pos hg, if_pos hg.2]
    have hcount : pollSubmitCount qm.n_wanted qm.max_n_queued
        (qm.submitted_jobs.filter (fR sched)).length
        (qm.submitted_jobs.filter (fQ sched)).length =
        (min (qm.n_wanted -
            (((qm.submitted_jobs.filter (fR sched)).length : Int) +
              ((qm.submitted_jobs.filter (fQ sched)).length : Int)))
          (qm.max_n_queued - ((qm.submitted_jobs.filter (fQ sched)).length : Int))).toNat := by
      rw [pollSubmitCount, if_pos hg]
    refine ⟨_, _, rfl, rfl, rfl, rfl, rfl, rfl, ?_, ?_, ?_, ?_, ?_⟩
    · rw [runBatchAux_results, hcount]
    · rw [(runBatchAux_config sched _ 0 qm1).1, hk2]
    · rw [(runBatchAux_config sched _ 0 qm1).2, hk3]
    · exact runBatchAux_nodup sched _ 0 qm1 hk4
    · intro x
      rw [runBatchAux_mem, hk5 x, hcount]
      simp only [Nat.zero_add]
  · rw [if_neg hg]
    have hcount : pollSubmitCount qm.n_wanted qm.max_n_queued
        (qm.submitted_jobs.filter (fR sched)).length
        (qm.submitted_jobs.filter (fQ sched)).length = 0 := by
      rw [pollSubmitCount, if_neg hg]
    refine ⟨_, _, rfl, rfl, rfl, rfl, rfl, rfl, ?_, hk2, hk3, hk4, ?_⟩
    · rw [hcount]
      rfl
    · intro x
      rw [hk5 x, hcount]
      simp

/-- Value of the four characteristic predicates on an id whose record
carries the state token `tok`. -/
theorem f_of_some (sched : Scheduler) (id : Int) (tok : String)
    (h : sched.find_id id = some tok) :
    fR sched id = isRunningTok tok ∧
    fQ sched id = (!isRunningTok tok && isQueuedTok tok) ∧
    fC sched id = (!isRunningTok tok && !isQueuedTok tok && isCompletedTok tok) ∧
    fM sched id = false := by
  simp [fR, fQ, fC, fM, h]

/-- Value of the four characteristic predicates on an id with no record. -/
theorem f_of_none (sched : Scheduler) (id : Int) (h : sched.find_id id = none) :
    fR sched id = false ∧ fQ sched id = false ∧ fC sched id = false ∧
    fM sched id = true := by
  simp [fR, fQ, fC, fM, h]

/-- The pending token is not a running token. -/
theorem isQueuedTok_excl {tok : String} (h : isQueuedTok tok = true) :
    isRunningTok tok = false := by
  have htok : tok = JobState.PENDING := by
    simpa [isQueuedTok] using h
  subst htok
  rfl

/-- A completed-class token is neither a running nor the pending token. -/
theorem isCompletedTok_excl {tok : String} (h : isCompletedTok tok = true) :
    isRunningTok tok = false ∧ isQueuedTok tok = false := by
  have htok : tok = JobState.COMPLETED ∨ tok = JobState.COMPLETING ∨
      tok = JobState.TIMEOUT := by
    simpa [isCompletedTok, or_assoc] using h
  rcases htok with rfl | rfl | rfl <;> exact ⟨rfl, rfl⟩

/-- Whatever state it starts from, a successful `poll` cycle only holds ids
that were already tracked or are positive results of its own submission
attempts (no freshness or duplicate-freedom assumptions needed). -/
theorem poll_mem_inv (qm : QueueManager) (sched : Scheduler) (qm' : QueueManager)
    (stats : CycleStats) (h : poll qm sched = some (qm', stats)) :
    ∀ x ∈ qm'.submitted_jobs, x ∈ qm.submitted_jobs ∨ (0 < x ∧ x ∈ stats.submitResults) := by
  simp only [poll] at h
  rcases hk : killEach sched qm ((get_submitted_job_info qm sched).2.2.1 ++
      (get_submitted_job_info qm sched).2.2.2) with _ | qm1
  · rw [hk] at h
    cases h
  · rw [hk] at h
    dsimp only at h
    have hsub := (killEach_subset sched _ qm qm1 hk).1
    split_ifs at h with h1 h2
    · simp only [Option.some.injEq, Prod.mk.injEq] at h
      obtain ⟨hqm, hstats⟩ := h
      subst hqm; subst hstats
      intro x hx
      rw [runBatchAux_mem] at hx
      rcases hx with hx | ⟨hpos, k, hk', hres⟩
      · exact Or.inl (hsub x hx)
      · refine Or.inr ⟨hpos, ?_⟩
        show x ∈ (runBatchAux sched 0 _ qm1).2
        rw [runBatchAux_results]
        rw [List.mem_map]
        refine ⟨k, ?_, by simpa using hres⟩
        rw [List.mem_range'_1]
        omega
    · simp only [Option.some.injEq, Prod.mk.injEq] at h
      obtain ⟨hqm, hstats⟩ := h
      subst hqm; subst hstats
      intro x hx
      exact Or.inl (hsub x hx)
    · simp only [Option.some.injEq, Prod.mk.injEq] at h
      obtain ⟨hqm, hstats⟩ := h
      subst hqm; subst hstats
      intro x hx
      exact Or.inl (hsub x hx)

/-- Inversion of the interrupt drain: a successful drain is a successful
kill loop over the snapshot of the registry, and the reported kill targets
are exactly that snapshot. -/
theorem interrupt_inv (qm : QueueManager) (sched : Scheduler) (qm' : QueueManager)
    (killed : List Int) (h : infinite_poll_interrupted qm sched = some (qm', killed)) :
    killEach sched qm qm.submitted_jobs = some qm' ∧ killed = qm.submitted_jobs := by
  simp only [infinite_poll_interrupted] at h
  rcases hk : killEach sched qm qm.submitted_jobs with _ | qm1
  · rw [hk] at h
    cases h
  · rw [hk] at h
    simp only [Option.some.injEq, Prod.mk.injEq] at h
    obtain ⟨hqm, hkilled⟩ := h
    exact ⟨congrArg some hqm, hkilled.symm⟩

/-- Every reachable registry is duplicate-free (it models a Python set). -/
theorem reachable_nodup (qm : QueueManager) (log : List Int)
    (h : Reachable qm log) : qm.submitted_jobs.Nodup := by
  induction h with
  | init nW mQ => exact List.nodup_nil
  | @pollStep qm0 log0 sched qm' stats _ hpoll ih =>
    obtain ⟨qm2, stats2, heq, _, _, _, _, _, _, _, _, hnd2, _⟩ :=
      poll_spec qm0 sched ih (get_submitted_job_info qm0 sched).1
        (get_submitted_job_info qm0 sched).2.1 (get_submitted_job_info qm0 sched).2.2.1
        (get_submitted_job_info qm0 sched).2.2.2 rfl
    rw [heq] at hpoll
    simp only [Option.some.injEq, Prod.mk.injEq] at hpoll
    rw [← hpoll.1]
    exact hnd2
  | @interruptStep qm0 log0 sched qm' killed _ hint ih =>
    obtain ⟨hk, -⟩ := interrupt_inv qm0 sched qm' killed hint
    obtain ⟨qm2, hk2, _, _, hnd2, _⟩ :=
      killEach_some sched qm0.submitted_jobs qm0 ih (fun d hd => hd) ih
    rw [hk2] at hk
    cases hk
    exact hnd2

/-- C1: for every cycle, if `running + queued < n_wanted` and
`queued < max_n_queued` at the top-up decision, `poll` attempts exactly
`n_submit = min(n_wanted - (running + queued), max_n_queued - queued)`
submissions, with `1 ≤ n_submit` and `n_submit ≤ max_n_queued - queued`;
otherwise it attempts exactly 0 submissions. -/
theorem topup_submission_count (qm : QueueManager) (sched : Scheduler)
    (hnd : qm.submitted_jobs.Nodup) (r q c m : List Int)
    (hinfo : get_submitted_job_info qm sched = (r, q, c, m)) :
    ∃ qm' stats, poll qm sched = some (qm', stats) ∧
      (((r.length : Int) + (q.length : Int) < qm.n_wanted ∧
          (q.length : Int) < qm.max_n_queued) →
        stats.submitResults.length =
            (min (qm.n_wanted - ((r.length : Int) + (q.length : Int)))
              (qm.max_n_queued - (q.length : Int))).toNat ∧
        1 ≤ stats.submitResults.length ∧
        (stats.submitResults.length : Int) ≤ qm.max_n_queued - (q.length : Int)) ∧
      (¬((r.length : Int) + (q.length : Int) < qm.n_wanted ∧
          (q.length : Int) < qm.max_n_queued) →
        stats.submitResults.length = 0) := by
  obtain ⟨qm', stats, hpoll, _, _, _, _, _, hres, _, _, _, _⟩ :=
    poll_spec qm sched hnd r q c m hinfo
  have hlen : stats.submitResults.length =
      pollSubmitCount qm.n_wanted qm.max_n_queued r.length q.length := by
    rw [hres, List.length_map, List.length_range']
  refine ⟨qm', stats, hpoll, ?_, ?_⟩
  · intro hg
    rw [pollSubmitCount, if_pos hg] at hlen
    refine ⟨hlen, ?_, ?_⟩
    · rw [hlen]
      have h1 : (0 : Int) < qm.n_wanted - ((r.length : Int) + (q.length : Int)) := by omega
      have h2 : (0 : Int) < qm.max_n_queued - (q.length : Int) := by omega
      have h3 := lt_min h1 h2
      omega
    · rw [hlen]
      have h3 := min_le_right (qm.n_wanted - ((r.length : Int) + (q.length : Int)))
        (qm.max_n_queued - (q.length : Int))
      omega
  · intro hg
    rw [pollSubmitCount, if_neg hg] at hlen
    exact hlen

/-- Witness for the C1 theorem: spec scenario 1 (`n_wanted = 3`,
`max_n_queued = 5`, empty registry, all submissions succeeding) makes
exactly `min(3, 5) = 3` attempts. -/
theorem topup_submission_count_witness :
    ∃ qm' stats,
      poll ⟨3, 5, []⟩ ⟨fun _ => none, fun _ => true, fun k => (k : Int) + 11⟩ =
        some (qm', stats) ∧
      (((0 : Int) + (0 : Int) < 3 ∧ (0 : Int) < 5) →
        stats.submitResults.length = (min ((3 : Int) - ((0 : Int) + (0 : Int))) ((5 : Int) - (0 : Int))).toNat ∧
        1 ≤ stats.submitResults.length ∧
        (stats.submitResults.length : Int) ≤ (5 : Int) - (0 : Int)) ∧
      (¬((0 : Int) + (0 : Int) < 3 ∧ (0 : Int) < 5) →
        stats.submitResults.length = 0) :=
  topup_submission_count ⟨3, 5, []⟩ ⟨fun _ => none, fun _ => true, fun k => (k : Int) + 11⟩
    List.nodup_nil [] [] [] [] rfl

/-- C2 counterexample: with one tracked job (id 10) whose scheduler-reported
state is the non-empty unrecognized token "FAILED", the cycle issues NO kill
request and id 10 is STILL in the Registry at the end of that cycle —
contradicting the claim that every ID classified Unknown is killed and
removed within its cycle. -/
theorem unknown_retained_counterexample :
    (⟨fun _ => some "FAILED", fun _ => true, fun _ => -1⟩ : Scheduler).find_id 10 =
      some "FAILED" ∧
    (poll ⟨3, 5, [10]⟩ ⟨fun _ => some "FAILED", fun _ => true, fun _ => -1⟩).map
      (fun p => (p.1.submitted_jobs, p.2.killedIds)) = some ([10], []) := by
  exact ⟨rfl, rfl⟩

/-- C2 (amended): for every cycle, every tracked ID classified Unknown
because the scheduler has NO record of it is issued a kill request and is
absent from the Registry at the end of that same cycle (assuming successful
submissions return fresh ids); but an ID whose state token is non-empty and
unrecognized is only logged: no kill request is issued for it and it remains
in the Registry at the end of the cycle. -/
theorem unknown_cleanup_amended (qm : QueueManager) (sched : Scheduler)
    (hnd : qm.submitted_jobs.Nodup)
    (hfresh : ∀ k, 0 < sched.submit_res k → sched.submit_res k ∉ qm.submitted_jobs) :
    ∃ qm' stats, poll qm sched = some (qm', stats) ∧
      (∀ id ∈ qm.submitted_jobs, sched.find_id id = none →
        id ∈ stats.killedIds ∧ id ∉ qm'.submitted_jobs) ∧
      (∀ id ∈ qm.submitted_jobs, ∀ tok, sched.find_id id = some tok →
        recognizedTok tok = false → id ∉ stats.killedIds ∧ id ∈ qm'.submitted_jobs) := by
  have hinfo : get_submitted_job_info qm sched =
      (qm.submitted_jobs.filter (fR sched), qm.submitted_jobs.filter (fQ sched),
        qm.submitted_jobs.filter (fC sched), qm.submitted_jobs.filter (fM sched)) := by
    rw [get_submitted_job_info, classifyJobs_eq]
  obtain ⟨qm', stats, hpoll, _, _, _, _, hkilled, _, _, _, _, hmem⟩ :=
    poll_spec qm sched hnd _ _ _ _ hinfo
  refine ⟨qm', stats, hpoll, ?_, ?_⟩
  · intro id hid hnone
    have hfm : fM sched id = true := (f_of_none sched id hnone).2.2.2
    have hidm : id ∈ qm.submitted_jobs.filter (fM sched) := List.mem_filter.mpr ⟨hid, hfm⟩
    constructor
    · rw [hkilled]
      exact List.mem_append.mpr (Or.inr hidm)
    · intro hcontra
      rcases (hmem id).mp hcontra with ⟨_, hnc⟩ | ⟨hpos, k, _, hres⟩
      · exact hnc (List.mem_append.mpr (Or.inr hidm))
      · exact hfresh k (hres ▸ hpos) (hres ▸ hid)
  · intro id hid tok htok hrec
    have hfs := f_of_some sched id tok htok
    simp only [recognizedTok, Bool.or_eq_false_iff] at hrec
    obtain ⟨⟨hr1, hq1⟩, hc1⟩ := hrec
    have hfc : fC sched id = false := by
      rw [hfs.2.2.1, hc1]
      simp
    have hfm : fM sched id = false := hfs.2.2.2
    have hnotc : id ∉ qm.submitted_jobs.filter (fC sched) := by
      intro hx
      rw [(List.mem_filter.mp hx).2] at hfc
      cases hfc
    have hnotm : id ∉ qm.submitted_jobs.filter (fM sched) := by
      intro hx
      rw [(List.mem_filter.mp hx).2] at hfm
      cases hfm
    constructor
    · rw [hkilled]
      intro hx
      rcases List.mem_append.mp hx with hx | hx
      · exact hnotc hx
      · exact hnotm hx
    · refine (hmem id).mpr (Or.inl ⟨hid, ?_⟩)
      intro hx
      rcases List.mem_append.mp hx with hx | hx
      · exact hnotc hx
      · exact hnotm hx

/-- Witness for the amended C2 theorem: registry {10} with id 10 missing
from the scheduler; the cycle kills and drops 10. -/
theorem unknown_cleanup_amended_witness :
    ∃ qm' stats,
      poll ⟨3, 5, [10]⟩ ⟨fun _ => none, fun _ => true, fun _ => -1⟩ = some (qm', stats) ∧
      (∀ id ∈ ([10] : List Int),
        (⟨fun _ => none, fun _ => true, fun _ => -1⟩ : Scheduler).find_id id = none →
        id ∈ stats.killedIds ∧ id ∉ qm'.submitted_jobs) ∧
      (∀ id ∈ ([10] : List Int), ∀ tok,
        (⟨fun _ => none, fun _ => true, fun _ => -1⟩ : Scheduler).find_id id = some tok →
        recognizedTok tok = false → id ∉ stats.killedIds ∧ id ∈ qm'.submitted_jobs) :=
  unknown_cleanup_amended ⟨3, 5, [10]⟩ ⟨fun _ => none, fun _ => true, fun _ => -1⟩
    (by decide) (fun k hk => absurd hk (show ¬(0 : Int) < -1 by decide))

/-- C3 counterexample: invoking the kill operation on id 1 with an empty
Registry raises (the `set.remove` KeyError, modelled by `none`) instead of
being a no-op returning a boolean failure. -/
theorem kill_absent_counterexample :
    kill_job ⟨3, 5, []⟩ ⟨fun _ => none, fun _ => true, fun _ => -1⟩ 1 = none := rfl

/-- C3 (amended): `kill_job` on an ID that is NOT in the Registry raises a
KeyError from the registry removal (it is not an idempotent no-op); on an ID
that IS in the Registry, it removes the ID and reports the scheduler-side
cancel outcome via its boolean result without raising. -/
theorem kill_job_amended (qm : QueueManager) (sched : Scheduler) (id : Int) :
    (id ∉ qm.submitted_jobs → kill_job qm sched id = none) ∧
    (id ∈ qm.submitted_jobs →
      kill_job qm sched id =
        some ({ qm with submitted_jobs := qm.submitted_jobs.erase id },
          sched.kill_ok id)) := by
  constructor
  · intro h
    unfold kill_job
    rw [if_neg h]
  · intro h
    unfold kill_job
    rw [if_pos h]

/-- Witness for the amended C3 theorem: killing the absent id 7 raises,
killing the present id 1 removes it and returns the scheduler's boolean. -/
theorem kill_job_amended_witness :
    kill_job ⟨3, 5, [1, 2]⟩ ⟨fun _ => none, fun _ => false, fun _ => -1⟩ 7 = none ∧
    kill_job ⟨3, 5, [1, 2]⟩ ⟨fun _ => none, fun _ => false, fun _ => -1⟩ 1 =
      some (⟨3, 5, [2]⟩, false) :=
  ⟨(kill_job_amended ⟨3, 5, [1, 2]⟩ ⟨fun _ => none, fun _ => false, fun _ => -1⟩ 7).1
      (by decide),
    (kill_job_amended ⟨3, 5, [1, 2]⟩ ⟨fun _ => none, fun _ => false, fun _ => -1⟩ 1).2
      (by decide)⟩

/-- An element failing a filter's predicate is not in the filtered list. -/
theorem not_mem_filter_of_false {α : Type} (p : α → Bool) (l : List α) (a : α)
    (h : p a = false) : a ∉ l.filter p := by
  intro hx
  rw [(List.mem_filter.mp hx).2] at h
  cases h

/-- C4 counterexample: id 10 is tracked and its scheduler record carries the
non-empty unrecognized token "FAILED", yet `get_submitted_job_info` returns
it in NONE of the four buckets — the classification leaves the job in no
bucket. -/
theorem classifier_bucket_counterexample :
    (10 : Int) ∈ (⟨3, 5, [10]⟩ : QueueManager).submitted_jobs ∧
    (⟨fun _ => some "FAILED", fun _ => true, fun _ => -1⟩ : Scheduler).find_id 10 =
      some "FAILED" ∧
    get_submitted_job_info ⟨3, 5, [10]⟩
      ⟨fun _ => some "FAILED", fun _ => true, fun _ => -1⟩ = ([], [], [], []) :=
  ⟨by decide, rfl, rfl⟩

/-- C4 (amended): the classification never raises and maps absence of a
record to the missing bucket, RUNNING/SUSPENDED to running, PENDING to
queued and COMPLETED/COMPLETING/TIMEOUT to completed, each id landing in
exactly that one bucket; but a tracked id with any OTHER non-empty token is
only logged and lands in NO bucket of the returned partition. -/
theorem classifier_mapping_amended (qm : QueueManager) (sched : Scheduler) (id : Int)
    (r q c m : List Int) (hinfo : get_submitted_job_info qm sched = (r, q, c, m))
    (hmem : id ∈ qm.submitted_jobs) :
    (sched.find_id id = none → id ∈ m ∧ id ∉ r ∧ id ∉ q ∧ id ∉ c) ∧
    (∀ tok, sched.find_id id = some tok → isRunningTok tok = true →
      id ∈ r ∧ id ∉ q ∧ id ∉ c ∧ id ∉ m) ∧
    (∀ tok, sched.find_id id = some tok → isQueuedTok tok = true →
      id ∈ q ∧ id ∉ r ∧ id ∉ c ∧ id ∉ m) ∧
    (∀ tok, sched.find_id id = some tok → isCompletedTok tok = true →
      id ∈ c ∧ id ∉ r ∧ id ∉ q ∧ id ∉ m) ∧
    (∀ tok, sched.find_id id = some tok → recognizedTok tok = false →
      id ∉ r ∧ id ∉ q ∧ id ∉ c ∧ id ∉ m) := by
  rw [get_submitted_job_info, classifyJobs_eq] at hinfo
  simp only [Prod.mk.injEq] at hinfo
  obtain ⟨hr, hq, hc, hm⟩ := hinfo
  subst hr; subst hq; subst hc; subst hm
  refine ⟨?_, ?_, ?_, ?_, ?_⟩
  · intro hnone
    obtain ⟨e1, e2, e3, e4⟩ := f_of_none sched id hnone
    exact ⟨List.mem_filter.mpr ⟨hmem, e4⟩, not_mem_filter_of_false _ _ _ e1,
      not_mem_filter_of_false _ _ _ e2, not_mem_filter_of_false _ _ _ e3⟩
  · intro tok htok hrun
    obtain ⟨e1, e2, e3, e4⟩ := f_of_some sched id tok htok
    refine ⟨List.mem_filter.mpr ⟨hmem, by rw [e1, hrun]⟩,
      not_mem_filter_of_false _ _ _ (by rw [e2, hrun]; rfl),
      not_mem_filter_of_false _ _ _ (by rw [e3, hrun]; rfl),
      not_mem_filter_of_false _ _ _ e4⟩
  · intro tok htok hqe
    have hrun := isQueuedTok_excl hqe
    obtain ⟨e1, e2, e3, e4⟩ := f_of_some sched id tok htok
    refine ⟨List.mem_filter.mpr ⟨hmem, by rw [e2, hrun, hqe]; rfl⟩,
      not_mem_filter_of_false _ _ _ (by rw [e1, hrun]),
      not_mem_filter_of_false _ _ _ (by rw [e3, hrun, hqe]; rfl),
      not_mem_filter_of_false _ _ _ e4⟩
  · intro tok htok hco
    obtain ⟨hrun, hqe⟩ := isCompletedTok_excl hco
    obtain ⟨e1, e2, e3, e4⟩ := f_of_some sched id tok htok
    refine ⟨List.mem_filter.mpr ⟨hmem, by rw [e3, hrun, hqe, hco]; rfl⟩,
      not_mem_filter_of_false _ _ _ (by rw [e1, hrun]),
      not_mem_filter_of_false _ _ _ (by rw [e2, hrun, hqe]; rfl),
      not_mem_filter_of_false _ _ _ e4⟩
  · intro tok htok hrec
    simp only [recognizedTok, Bool.or_eq_false_iff] at hrec
    obtain ⟨⟨hr1, hq1⟩, hc1⟩ := hrec
    obtain ⟨e1, e2, e3, e4⟩ := f_of_some sched id tok htok
    exact ⟨not_mem_filter_of_false _ _ _ (by rw [e1, hr1]),
      not_mem_filter_of_false _ _ _ (by rw [e2, hq1]; simp),
      not_mem_filter_of_false _ _ _ (by rw [e3, hc1]; simp),
      not_mem_filter_of_false _ _ _ e4⟩

/-- Witness for the amended C4 theorem: tracked id 10 with no scheduler
record lands in the missing bucket and in no other. -/
theorem classifier_mapping_amended_witness :
    (10 : Int) ∈ ([10] : List Int) ∧ (10 : Int) ∉ ([] : List Int) ∧
    (10 : Int) ∉ ([] : List Int) ∧ (10 : Int) ∉ ([] : List Int) :=
  (classifier_mapping_amended ⟨3, 5, [10]⟩ ⟨fun _ => none, fun _ => true, fun _ => -1⟩
    10 [] [] [] [10] rfl (by decide)).1 rfl

/-- C5: at every reachable point of the manager's execution, every ID in
the Registry is positive and was returned by a prior successful submission
of this instance (it is in the log of positive submission results); no
operation inserts an ID that did not come from a successful submission. -/
theorem registry_closure (qm : QueueManager) (log : List Int) (h : Reachable qm log) :
    ∀ id ∈ qm.submitted_jobs, 0 < id ∧ id ∈ log := by
  induction h with
  | init nW mQ =>
    intro id hid
    exact absurd hid (List.not_mem_nil id)
  | @pollStep qm0 log0 sched qm' stats hre hpoll ih =>
    intro id hid
    rcases poll_mem_inv qm0 sched qm' stats hpoll id hid with hmem | ⟨hpos, hres⟩
    · obtain ⟨h1, h2⟩ := ih id hmem
      exact ⟨h1, List.mem_append.mpr (Or.inl h2)⟩
    · refine ⟨hpos, List.mem_append.mpr (Or.inr ?_)⟩
      rw [List.mem_filter]
      exact ⟨hres, by simpa using hpos⟩
  | @interruptStep qm0 log0 sched qm' killed hre hint ih =>
    intro id hid
    obtain ⟨hk, -⟩ := interrupt_inv qm0 sched qm' killed hint
    exact ih id ((killEach_subset sched _ qm0 qm' hk).1 id hid)

/-- Witness for the C5 theorem: after one cycle from a fresh manager with
three successful submissions 11, 12, 13, the registry is exactly the log of
successful submission results. -/
theorem registry_closure_witness :
    (0 : Int) < 11 ∧ (11 : Int) ∈ ([11, 12, 13] : List Int) :=
  registry_closure ⟨3, 5, [11, 12, 13]⟩ [11, 12, 13]
    (Reachable.pollStep (Reachable.init 3 5)
      (rfl :
        poll ⟨3, 5, []⟩ ⟨fun _ => none, fun _ => true, fun k => (k : Int) + 11⟩ =
          some (⟨3, 5, [11, 12, 13]⟩, ⟨[], [], [], [], [], [11, 12, 13]⟩)))
    11 (by decide)

/-- C6: a planned batch of `n` submission attempts is performed in full —
each attempt made exactly once, in order, with no retry and no abort after
a failure; a failed attempt (non-positive result) leaves the state
unchanged and does not raise; the Registry keeps all its members and grows
by exactly the number of successful attempts. -/
theorem batch_attempts_independent (qm : QueueManager) (sched : Scheduler) (n : Nat)
    (hfresh : ∀ k, k < n → 0 < sched.submit_res k → sched.submit_res k ∉ qm.submitted_jobs)
    (hdist : ∀ k l, k < l → l < n → 0 < sched.submit_res k →
      sched.submit_res k ≠ sched.submit_res l) :
    (runBatchAux sched 0 n qm).2 = (List.range' 0 n).map sched.submit_res ∧
    (runBatchAux sched 0 n qm).2.length = n ∧
    (∀ x ∈ qm.submitted_jobs, x ∈ (runBatchAux sched 0 n qm).1.submitted_jobs) ∧
    (runBatchAux sched 0 n qm).1.submitted_jobs.length =
      qm.submitted_jobs.length +
        (((List.range' 0 n).map sched.submit_res).filter (fun x => decide (0 < x))).length ∧
    (∀ (qmx : QueueManager) (j : Int), ¬ 0 < j → submit_job qmx j = (qmx, j)) := by
  refine ⟨runBatchAux_results sched n 0 qm, ?_, ?_, ?_, submit_job_fail⟩
  · rw [runBatchAux_results]
    simp
  · intro x hx
    rw [runBatchAux_mem]
    exact Or.inl hx
  · apply runBatchAux_length
    · intro k hk
      simpa using hfresh k hk
    · intro k l hkl hl
      simpa using hdist k l hkl hl

/-- Witness for the C6 theorem: a batch of 3 attempts over an empty
registry with all submissions succeeding (ids 11, 12, 13). -/
theorem batch_attempts_independent_witness :
    (runBatchAux ⟨fun _ => none, fun _ => true, fun k => (k : Int) + 11⟩ 0 3 ⟨3, 5, []⟩).2 =
      (List.range' 0 3).map (fun k => (k : Int) + 11) ∧
    (runBatchAux ⟨fun _ => none, fun _ => true, fun k => (k : Int) + 11⟩ 0 3 ⟨3, 5, []⟩).2.length = 3 ∧
    (∀ x ∈ ([] : List Int),
      x ∈ (runBatchAux ⟨fun _ => none, fun _ => true, fun k => (k : Int) + 11⟩ 0 3 ⟨3, 5, []⟩).1.submitted_jobs) ∧
    (runBatchAux ⟨fun _ => none, fun _ => true, fun k => (k : Int) + 11⟩ 0 3 ⟨3, 5, []⟩).1.submitted_jobs.length =
      ([] : List Int).length +
        (((List.range' 0 3).map (fun k => (k : Int) + 11)).filter (fun x => decide (0 < x))).length ∧
    (∀ (qmx : QueueManager) (j : Int), ¬ 0 < j → submit_job qmx j = (qmx, j)) :=
  batch_attempts_independent ⟨3, 5, []⟩ ⟨fun _ => none, fun _ => true, fun k => (k : Int) + 11⟩ 3
    (fun k _ _ => List.not_mem_nil _)
    (fun k l hkl _ _ => by
      intro heq
      simp only at heq
      omega)

/-- C7: within a cycle, the counts driving the top-up decision are the
sizes of the PRE-cleanup running and queued buckets; the completed and
missing ids are disjoint from those buckets, so a job that became terminal
this cycle is never counted toward capacity; and the cleanup removal is
applied before the top-up, so those ids are gone from the final registry
(given fresh submission ids). -/
theorem cleanup_before_topup (qm : QueueManager) (sched : Scheduler)
    (hnd : qm.submitted_jobs.Nodup) (r q c m : List Int)
    (hinfo : get_submitted_job_info qm sched = (r, q, c, m))
    (hfresh : ∀ k, 0 < sched.submit_res k → sched.submit_res k ∉ qm.submitted_jobs) :
    ∃ qm' stats, poll qm sched = some (qm', stats) ∧
      (∀ id ∈ c ++ m, id ∉ r ∧ id ∉ q) ∧
      stats.submitResults.length =
        pollSubmitCount qm.n_wanted qm.max_n_queued r.length q.length ∧
      (∀ id ∈ c ++ m, id ∉ qm'.submitted_jobs) := by
  have hinfo2 := hinfo
  rw [get_submitted_job_info, classifyJobs_eq] at hinfo2
  simp only [Prod.mk.injEq] at hinfo2
  obtain ⟨hr, hq, hc, hm⟩ := hinfo2
  subst hr; subst hq; subst hc; subst hm
  obtain ⟨qm', stats, hpoll, _, _, _, _, _, hres, _, _, _, hmem⟩ :=
    poll_spec qm sched hnd _ _ _ _ hinfo
  have hcm : ∀ id ∈ qm.submitted_jobs.filter (fC sched) ++
      qm.submitted_jobs.filter (fM sched),
      (fC sched id = true ∨ fM sched id = true) ∧ id ∈ qm.submitted_jobs := by
    intro id hid
    rcases List.mem_append.mp hid with h | h
    · exact ⟨Or.inl (List.mem_filter.mp h).2, (List.mem_filter.mp h).1⟩
    · exact ⟨Or.inr (List.mem_filter.mp h).2, (List.mem_filter.mp h).1⟩
  refine ⟨qm', stats, hpoll, ?_, ?_, ?_⟩
  · intro id hid
    obtain ⟨hcase, hmem0⟩ := hcm id hid
    constructor
    · intro hx
      have hfr := (List.mem_filter.mp hx).2
      rcases hcase with h | h
      · exact (f_pairwise sched id).2.1 ⟨hfr, h⟩
      · exact (f_pairwise sched id).2.2.1 ⟨hfr, h⟩
    · intro hx
      have hfq := (List.mem_filter.mp hx).2
      rcases hcase with h | h
      · exact (f_pairwise sched id).2.2.2.1 ⟨hfq, h⟩
      · exact (f_pairwise sched id).2.2.2.2.1 ⟨hfq, h⟩
  · rw [hres, List.length_map, List.length_range']
  · intro id hid
    intro hx
    obtain ⟨-, hmem0⟩ := hcm id hid
    rcases (hmem id).mp hx with ⟨-, hnc⟩ | ⟨hpos, k, -, hkres⟩
    · exact hnc hid
    · exact hfresh k (hkres ▸ hpos) (hkres ▸ hmem0)

/-- Witness for the C7 theorem: one tracked missing job (id 10) is dropped
before a top-up of `min(3, 5) = 3` fresh submissions. -/
theorem cleanup_before_topup_witness :
    ∃ qm' stats,
      poll ⟨3, 5, [10]⟩ ⟨fun _ => none, fun _ => true, fun k => (k : Int) + 11⟩ =
        some (qm', stats) ∧
      (∀ id ∈ ([] : List Int) ++ ([10] : List Int),
        id ∉ ([] : List Int) ∧ id ∉ ([] : List Int)) ∧
      stats.submitResults.length = pollSubmitCount 3 5 0 0 ∧
      (∀ id ∈ ([] : List Int) ++ ([10] : List Int), id ∉ qm'.submitted_jobs) :=
  cleanup_before_topup ⟨3, 5, [10]⟩ ⟨fun _ => none, fun _ => true, fun k => (k : Int) + 11⟩
    (by decide) [] [] [] [10] rfl
    (fun k hp hmem => by simp only [List.mem_singleton] at hmem; omega)

/-- C8: the interrupt handler of the infinite loop stops the cycling,
issues a kill request for every ID currently in the Registry (continuing
through individual scheduler-side kill failures — the oracle's `kill_ok` is
arbitrary), never raises, empties the Registry and returns; with an empty
Registry nothing is killed. -/
theorem interrupt_drain (qm : QueueManager) (sched : Scheduler)
    (hnd : qm.submitted_jobs.Nodup) :
    ∃ qm', infinite_poll_interrupted qm sched = some (qm', qm.submitted_jobs) ∧
      qm'.submitted_jobs = [] ∧ qm'.n_wanted = qm.n_wanted ∧
      qm'.max_n_queued = qm.max_n_queued := by
  obtain ⟨qm1, hk, h2, h3, h4, h5⟩ :=
    killEach_some sched qm.submitted_jobs qm hnd (fun d hd => hd) hnd
  refine ⟨qm1, ?_, ?_, h2, h3⟩
  · simp only [infinite_poll_interrupted, hk]
  · rw [List.eq_nil_iff_forall_not_mem]
    intro x hx
    exact ((h5 x).mp hx).2 ((h5 x).mp hx).1

/-- Witness for the C8 theorem: a drain over registry {1, 2} with every
scheduler-side kill failing still kills both ids and empties the registry. -/
theorem interrupt_drain_witness :
    ∃ qm',
      infinite_poll_interrupted ⟨3, 5, [1, 2]⟩ ⟨fun _ => none, fun _ => false, fun _ => -1⟩ =
        some (qm', [1, 2]) ∧
      qm'.submitted_jobs = [] ∧ qm'.n_wanted = 3 ∧ qm'.max_n_queued = 5 :=
  interrupt_drain ⟨3, 5, [1, 2]⟩ ⟨fun _ => none, fun _ => false, fun _ => -1⟩ (by decide)

/-- C9: the four lists returned by `get_submitted_job_info` are
duplicate-free, pairwise disjoint, and every element of each is a member of
the registry at the time of the query. -/
theorem job_info_partition (qm : QueueManager) (sched : Scheduler)
    (hnd : qm.submitted_jobs.Nodup) (r q c m : List Int)
    (hinfo : get_submitted_job_info qm sched = (r, q, c, m)) :
    r.Nodup ∧ q.Nodup ∧ c.Nodup ∧ m.Nodup ∧
    (∀ x ∈ r, x ∈ qm.submitted_jobs) ∧ (∀ x ∈ q, x ∈ qm.submitted_jobs) ∧
    (∀ x ∈ c, x ∈ qm.submitted_jobs) ∧ (∀ x ∈ m, x ∈ qm.submitted_jobs) ∧
    (∀ x ∈ r, x ∉ q ∧ x ∉ c ∧ x ∉ m) ∧ (∀ x ∈ q, x ∉ c ∧ x ∉ m) ∧
    (∀ x ∈ c, x ∉ m) := by
  rw [get_submitted_job_info, classifyJobs_eq] at hinfo
  simp only [Prod.mk.injEq] at hinfo
  obtain ⟨hr, hq, hc, hm⟩ := hinfo
  subst hr; subst hq; subst hc; subst hm
  refine ⟨hnd.filter _, hnd.filter _, hnd.filter _, hnd.filter _,
    fun x hx => (List.mem_filter.mp hx).1, fun x hx => (List.mem_filter.mp hx).1,
    fun x hx => (List.mem_filter.mp hx).1, fun x hx => (List.mem_filter.mp hx).1,
    ?_, ?_, ?_⟩
  · intro x hx
    have h1 := (List.mem_filter.mp hx).2
    exact ⟨fun hy => (f_pairwise sched x).1 ⟨h1, (List.mem_filter.mp hy).2⟩,
      fun hy => (f_pairwise sched x).2.1 ⟨h1, (List.mem_filter.mp hy).2⟩,
      fun hy => (f_pairwise sched x).2.2.1 ⟨h1, (List.mem_filter.mp hy).2⟩⟩
  · intro x hx
    have h1 := (List.mem_filter.mp hx).2
    exact ⟨fun hy => (f_pairwise sched x).2.2.2.1 ⟨h1, (List.mem_filter.mp hy).2⟩,
      fun hy => (f_pairwise sched x).2.2.2.2.1 ⟨h1, (List.mem_filter.mp hy).2⟩⟩
  · intro x hx
    have h1 := (List.mem_filter.mp hx).2
    exact fun hy => (f_pairwise sched x).2.2.2.2.2 ⟨h1, (List.mem_filter.mp hy).2⟩

/-- Witness for the C9 theorem: registry {1, 2, 3, 4, 5} with one job per
bucket (and 4 carrying an unrecognized token). -/
theorem job_info_partition_witness :
    ([1] : List Int).Nodup ∧ ([2] : List Int).Nodup ∧ ([3] : List Int).Nodup ∧
    ([5] : List Int).Nodup ∧
    (∀ x ∈ ([1] : List Int), x ∈ ([1, 2, 3, 4, 5] : List Int)) ∧
    (∀ x ∈ ([2] : List Int), x ∈ ([1, 2, 3, 4, 5] : List Int)) ∧
    (∀ x ∈ ([3] : List Int), x ∈ ([1, 2, 3, 4, 5] : List Int)) ∧
    (∀ x ∈ ([5] : List Int), x ∈ ([1, 2, 3, 4, 5] : List Int)) ∧
    (∀ x ∈ ([1] : List Int), x ∉ ([2] : List Int) ∧ x ∉ ([3] : List Int) ∧
      x ∉ ([5] : List Int)) ∧
    (∀ x ∈ ([2] : List Int), x ∉ ([3] : List Int) ∧ x ∉ ([5] : List Int)) ∧
    (∀ x ∈ ([3] : List Int), x ∉ ([5] : List Int)) :=
  job_info_partition ⟨6, 5, [1, 2, 3, 4, 5]⟩
    ⟨fun j => if j = 1 then some "RUNNING" else if j = 2 then some "PENDING"
      else if j = 3 then some "COMPLETED" else if j = 4 then some "FAILED" else none,
      fun _ => true, fun _ => -1⟩
    (by decide) [1] [2] [3] [5] rfl

/-- C10: every kill the cleanup loop issues targets an ID that is a member
of the Registry at the moment of the call — the completed and missing
buckets form a duplicate-free list of current members, each killed at most
once — so the registry removal inside `kill_job` never fails during
cleanup. -/
theorem cleanup_kill_safe (qm : QueueManager) (sched : Scheduler)
    (hnd : qm.submitted_jobs.Nodup) (r q c m : List Int)
    (hinfo : get_submitted_job_info qm sched = (r, q, c, m)) :
    (c ++ m).Nodup ∧ (∀ id ∈ c ++ m, id ∈ qm.submitted_jobs) ∧
    ∃ qm1, killEach sched qm (c ++ m) = some qm1 := by
  rw [get_submitted_job_info, classifyJobs_eq] at hinfo
  simp only [Prod.mk.injEq] at hinfo
  obtain ⟨hr, hq, hc, hm⟩ := hinfo
  subst hr; subst hq; subst hc; subst hm
  have hcm_nd : (qm.submitted_jobs.filter (fC sched) ++
      qm.submitted_jobs.filter (fM sched)).Nodup := by
    rw [List.nodup_append]
    refine ⟨hnd.filter _, hnd.filter _, ?_⟩
    intro a ha hb
    rw [List.mem_filter] at ha hb
    exact (f_pairwise sched a).2.2.2.2.2 ⟨ha.2, hb.2⟩
  have hcm_sub : ∀ d ∈ qm.submitted_jobs.filter (fC sched) ++
      qm.submitted_jobs.filter (fM sched), d ∈ qm.submitted_jobs := by
    intro d hd
    rcases List.mem_append.mp hd with h | h
    · exact (List.mem_filter.mp h).1
    · exact (List.mem_filter.mp h).1
  obtain ⟨qm1, hk, -, -, -, -⟩ := killEach_some sched _ qm hcm_nd hcm_sub hnd
  exact ⟨hcm_nd, hcm_sub, qm1, hk⟩

/-- Witness for the C10 theorem: the completed job 3 and the missing job 5
are distinct current members and their cleanup kills succeed. -/
theorem cleanup_kill_safe_witness :
    (([3] : List Int) ++ ([5] : List Int)).Nodup ∧
    (∀ id ∈ ([3] : List Int) ++ ([5] : List Int), id ∈ ([1, 2, 3, 4, 5] : List Int)) ∧
    ∃ qm1, killEach
      ⟨fun j => if j = 1 then some "RUNNING" else if j = 2 then some "PENDING"
        else if j = 3 then some "COMPLETED" else if j = 4 then some "FAILED" else none,
        fun _ => true, fun _ => -1⟩
      ⟨6, 5, [1, 2, 3, 4, 5]⟩ (([3] : List Int) ++ ([5] : List Int)) = some qm1 :=
  cleanup_kill_safe ⟨6, 5, [1, 2, 3, 4, 5]⟩
    ⟨fun j => if j = 1 then some "RUNNING" else if j = 2 then some "PENDING"
      else if j = 3 then some "COMPLETED" else if j = 4 then some "FAILED" else none,
      fun _ => true, fun _ => -1⟩
    (by decide) [1] [2] [3] [5] rfl

end IDynamic
